import Mathlib

/-!
Verification of the six-stage sales data pipeline (data_pipe.py).

The pipeline's tabular data is shallowly embedded: a record table is a list
of rows over a scalar cell type, numeric cells are exact rationals, and each
stage of the pipeline (data_cleaning, convert_dtypes, data_analysis,
data_visualization, save_to_csv) is a Lean function translated from the
corresponding Python function.  Fallible stages return Except values whose
error constructors follow the error taxonomy of the specification.
-/

/-- A scalar cell of a record table: string, integer, float (modelled as an
exact rational), temporal (calendar date), or missing (NaN). -/
inductive Value where
  | vstr (s : String)
  | vint (n : Int)
  | vfloat (q : ℚ)
  | vdate (y m d : Nat)
  | na
deriving DecidableEq, Repr

/-- Month component of a temporal cell.  none on a non-datetimelike cell,
modelling that the pandas dt accessor only applies to datetimelike columns.
(NaT months, which pandas turns into missing group keys, are not modelled;
cleaned pipeline data contains no missing dates.) -/
def Value.monthOf? : Value → Option Nat
  | .vdate _ m _ => some m
  | _ => none

/-- Read a cell as a number, as the mean aggregation does. -/
def Value.toRat? : Value → Option ℚ
  | .vint n => some (n : ℚ)
  | .vfloat q => some q
  | _ => none

/-- String rendering of a cell, as used by an astype str cast. -/
def Value.render : Value → String
  | .vstr s => s
  | .vint n => toString n
  | .vfloat q => toString q
  | .vdate y m d => toString y ++ "-" ++ toString m ++ "-" ++ toString d
  | .na => "nan"

/-- Datetimelike cell: a calendar date, or missing (NaT). -/
def Value.datetimeLike : Value → Bool
  | .vdate _ _ _ => true
  | .na => true
  | _ => false

/-- A proper (non-missing) temporal cell. -/
def Value.isTemporal : Value → Bool
  | .vdate _ _ _ => true
  | _ => false

/-- The error taxonomy of the pipeline.  notDatetime models the
AttributeError raised by the pandas dt accessor on a non-datetimelike
column; aggregateType models the error raised by mean on non-numeric data. -/
inductive PipeError where
  | missingColumn (c : String)
  | typeCoercion (c : String)
  | unknownDtype (t : String)
  | dateParse
  | notDatetime
  | aggregateType
  | unsupportedChartKind
deriving DecidableEq, Repr

/-- A record table: column names, rows of cells, and the row index. -/
@[ext]
structure DataFrame where
  cols : List String
  rows : List (List Value)
  index : List Nat
deriving DecidableEq, Repr

/-- Well-formedness of a record table: one cell per column in every row. -/
@[reducible]
def Wf (df : DataFrame) : Prop := ∀ r ∈ df.rows, r.length = df.cols.length

/-- Position of the first column with the given name. -/
def colPos (c : String) : List String → Option Nat
  | [] => none
  | x :: xs => if x = c then some 0 else (colPos c xs).map (· + 1)

/-- Column selection (data[c] as a list of cells, row order preserved). -/
def getCol (df : DataFrame) (c : String) : Option (List Value) :=
  (colPos c df.cols).map (fun i => df.rows.map (fun r => r.getD i Value.na))

/-- Column assignment (data[c] = vs): replaces the column when the name is
present, otherwise appends a new column at the right edge of the table. -/
def setCol (df : DataFrame) (c : String) (vs : List Value) : DataFrame :=
  match colPos c df.cols with
  | some i => DataFrame.mk df.cols ((df.rows.zip vs).map (fun p => p.1.set i p.2)) df.index
  | none => DataFrame.mk (df.cols ++ [c]) ((df.rows.zip vs).map (fun p => p.1 ++ [p.2])) df.index

/-- Does a row contain a missing value? -/
def hasNA (r : List Value) : Bool := r.any (fun v => v == Value.na)

/-- Remove duplicates keeping the first occurrence; seen holds rows already
emitted. -/
def dedupFirstAux {α : Type} [DecidableEq α] (seen : List α) : List α → List α
  | [] => []
  | a :: l => if a ∈ seen then dedupFirstAux seen l else a :: dedupFirstAux (a :: seen) l

/-- drop_duplicates semantics: keep the first occurrence of each row. -/
def dedupFirst {α : Type} [DecidableEq α] (l : List α) : List α := dedupFirstAux [] l

/-- The Cleaner (data_cleaning): drop_duplicates, then dropna, then
reset_index(drop=True). -/
def data_cleaning (df : DataFrame) : DataFrame :=
  { cols := df.cols,
    rows := (dedupFirst df.rows).filter (fun r => !hasNA r),
    index := List.range ((dedupFirst df.rows).filter (fun r => !hasNA r)).length }

/-- True when a supplied dtype string names a dtype the model casts to. -/
def knownDtype (t : String) : Bool := t == "str" || t == "int" || t == "float"

/-- One cell cast of an astype call; none when the cell cannot be cast. -/
def castVal (t : String) (v : Value) : Option Value :=
  if t == "str" then some (.vstr v.render)
  else if t == "int" then
    match v with
    | .vint n => some (.vint n)
    | .vfloat q => if q.den == 1 then some (.vint q.num) else none
    | .vstr s => s.toInt?.map Value.vint
    | _ => none
  else if t == "float" then v.toRat?.map Value.vfloat
  else none

/-- mapOpt f l evaluates f on every element; none as soon as one fails. -/
def mapOpt {α β : Type} (f : α → Option β) : List α → Option (List β)
  | [] => some []
  | a :: l =>
    match f a, mapOpt f l with
    | some b, some bs => some (b :: bs)
    | _, _ => none

/-- Cast one named column of the table to a declared dtype. -/
def astype1 (df : DataFrame) (c t : String) : Except PipeError DataFrame :=
  if knownDtype t then
    match getCol df c with
    | none => .error (.missingColumn c)
    | some vs =>
      match mapOpt (castVal t) vs with
      | none => .error (.typeCoercion c)
      | some ws => .ok (setCol df c ws)
  else .error (.unknownDtype t)

/-- data.astype(types_dict): cast each column named in the map. -/
def astype (df : DataFrame) : List (String × String) → Except PipeError DataFrame
  | [] => .ok df
  | (c, t) :: rest =>
    match astype1 df c t with
    | .ok d => astype d rest
    | .error e => .error e

/-- Split a character list on the dash separator. -/
def splitDash : List Char → List (List Char)
  | [] => [[]]
  | c :: cs =>
    if c = '-' then [] :: splitDash cs
    else
      match splitDash cs with
      | [] => [[c]]
      | g :: gs => (c :: g) :: gs

/-- Read an accumulating decimal number; none at the first non-digit. -/
def digitsVal : List Char → Nat → Option Nat
  | [], acc => some acc
  | c :: cs, acc => if c.isDigit then digitsVal cs (acc * 10 + (c.toNat - 48)) else none

/-- Decimal digits to a number; none on empty or non-numeric text. -/
def digitsToNat? : List Char → Option Nat
  | [] => none
  | c :: cs => digitsVal (c :: cs) 0

/-- Parse a YYYY-MM-DD text into a calendar date. -/
def parseDateText (s : String) : Option Value :=
  match splitDash s.data with
  | [ys, ms, ds] =>
    match digitsToNat? ys, digitsToNat? ms, digitsToNat? ds with
    | some y, some m, some d =>
      if 1 ≤ m && m ≤ 12 && 1 ≤ d && d ≤ 31 then some (.vdate y m d) else none
    | _, _, _ => none
  | _ => none

/-- pd.to_datetime on one cell: dates pass through, date texts are parsed,
missing values become NaT; other cells fail.  (Integer nanosecond epochs,
which pandas would also accept, are not modelled.) -/
def parseDate : Value → Option Value
  | .vdate y m d => some (.vdate y m d)
  | .vstr s => parseDateText s
  | .na => some .na
  | _ => none

/-- The Type Normalizer (convert_dtypes): astype with the caller's map, then
the unconditional assignment data[Date] = pd.to_datetime(data[Date]). -/
def convert_dtypes (data : DataFrame) (types_dict : List (String × String)) :
    Except PipeError DataFrame :=
  match astype data types_dict with
  | .error e => .error e
  | .ok d =>
    match getCol d "Date" with
    | none => .error (.missingColumn "Date")
    | some vs =>
      match mapOpt parseDate vs with
      | none => .error .dateParse
      | some ps => .ok (setCol d "Date" ps)

/-- Insert a key into a sorted duplicate-free key list. -/
def insertKey (k : Nat) : List Nat → List Nat
  | [] => [k]
  | x :: xs => if k < x then k :: x :: xs else if k = x then x :: xs else x :: insertKey k xs

/-- The distinct keys of a groupby, in ascending order (groupby sorts keys). -/
def sortedKeys (l : List Nat) : List Nat := l.foldr insertKey []

/-- The Units Sold numbers of the rows whose month equals k. -/
def groupVals (months : List Nat) (nums : List ℚ) (k : Nat) : List ℚ :=
  ((months.zip nums).filter (fun p => p.1 == k)).map Prod.snd

/-- The groupby mean for one month key. -/
def groupMean (months : List Nat) (nums : List ℚ) (k : Nat) : ℚ :=
  (groupVals months nums k).sum / (groupVals months nums k).length

/-- The Aggregator (data_analysis).  The first component of the result is the
state of the caller's table after the call: the assignment
data[month] = data[Date].dt.month writes through to the argument, so the
in-place effect is modelled by explicit state passing.  The second component
is the month-to-mean series produced by groupby(month)[Units Sold].mean(). -/
def data_analysis (data : DataFrame) :
    Except PipeError (DataFrame × List (Nat × ℚ)) :=
  match getCol data "Date" with
  | none => .error (.missingColumn "Date")
  | some dateVals =>
    match mapOpt Value.monthOf? dateVals with
    | none => .error .notDatetime
    | some months =>
      let data2 := setCol data "month" (months.map (fun m => Value.vint (Int.ofNat m)))
      match getCol data2 "Units Sold" with
      | none => .error (.missingColumn "Units Sold")
      | some unitVals =>
        match mapOpt Value.toRat? unitVals with
        | none => .error .aggregateType
        | some nums =>
          .ok (data2, (sortedKeys months).map (fun k => (k, groupMean months nums k)))

/-- The plot kinds the pandas plot accessor recognises at all. -/
def seriesKinds : List String :=
  ["line", "bar", "barh", "hist", "box", "kde", "density", "area", "pie"]

/-- Plot kinds recognised only on two-dimensional tables, not on a series. -/
def frameOnlyKinds : List String := ["scatter", "hexbin"]

/-- Every plot kind the plot accessor names. -/
def allKinds : List String := seriesKinds ++ frameOnlyKinds

/-- Fixed chart output path of the Visualizer. -/
def pngPath : String := "average_units_sold_by_month.png"

/-- The Visualizer (data_visualization): plot the series with the requested
kind and save the chart; a kind outside the enumerated set, or one reserved
for two-dimensional tables, raises the chart-kind error.  Returns the input
series unchanged together with the path of the image written. -/
def data_visualization (new_df : List (Nat × ℚ)) (vis_type : String) :
    Except PipeError (List (Nat × ℚ) × String) :=
  if vis_type ∈ allKinds then
    if vis_type ∈ frameOnlyKinds then .error .unsupportedChartKind
    else .ok (new_df, pngPath)
  else .error .unsupportedChartKind

/-- Text rendering of a mean, as the float appears in the output file. -/
def fmtRat (q : ℚ) : String :=
  if q.den == 1 then toString q.num ++ ".0" else toString q

/-- Series.to_csv: the header row then one line per entry.  With the index
the month keys form the first field of each line; without it only the value
field is written. -/
def to_csvSeries (s : List (Nat × ℚ)) (withIndex : Bool)
    (idxName valName : String) : List (List String) :=
  (if withIndex then [idxName, valName] else [valName]) ::
    s.map (fun p => if withIndex then [toString p.1, fmtRat p.2] else [fmtRat p.2])

/-- The Persister (save_to_csv): df.to_csv(filename, index=False) and return
the filename.  The first component is the content of the file written. -/
def save_to_csv (df : List (Nat × ℚ)) (filename : String) :
    List (List String) × String :=
  (to_csvSeries df false "month" "Units Sold", filename)

/-- Spec-side month of a row: the month component of the row's Date cell. -/
def rowMonth (df : DataFrame) (r : List Value) : Option Nat :=
  match colPos "Date" df.cols with
  | some i => (r.getD i Value.na).monthOf?
  | none => none

/-- Spec-side Units Sold number of a row. -/
def rowUnits (df : DataFrame) (r : List Value) : ℚ :=
  match colPos "Units Sold" df.cols with
  | some j => ((r.getD j Value.na).toRat?).getD 0
  | none => 0

/-- Spec-side: the rows of the table whose month is k. -/
def specMonthRows (df : DataFrame) (k : Nat) : List (List Value) :=
  df.rows.filter (fun r => rowMonth df r == some k)

/-- Spec-side: the unweighted arithmetic mean of Units Sold over the rows
with month k, written directly from the words of the specification. -/
def specMean (df : DataFrame) (k : Nat) : ℚ :=
  ((specMonthRows df k).map (rowUnits df)).sum / (specMonthRows df k).length

/-- Is an Except result a success? -/
def exceptOk {ε α : Type} : Except ε α → Bool
  | .ok _ => true
  | .error _ => false

/-- The record table of the specification's aggregation scenario. -/
def scenarioDf : DataFrame :=
  DataFrame.mk ["Date", "Units Sold"]
    [[.vdate 2023 1 5, .vint 10], [.vdate 2023 1 20, .vint 20], [.vdate 2023 2 1, .vint 30]]
    [0, 1, 2]

/-- The state of the scenario table after the Aggregator ran on it. -/
def scenarioD2 : DataFrame :=
  DataFrame.mk ["Date", "Units Sold", "month"]
    [[.vdate 2023 1 5, .vint 10, .vint 1], [.vdate 2023 1 20, .vint 20, .vint 1],
     [.vdate 2023 2 1, .vint 30, .vint 2]]
    [0, 1, 2]

/-- The monthly aggregate of the scenario. -/
def scenarioAgg : List (Nat × ℚ) := [(1, 15), (2, 30)]

/-- A table whose Date column holds unparsed text and that lacks Units Sold. -/
def dfDateText : DataFrame := DataFrame.mk ["Date"] [[.vstr "2023-01-05"]] [0]

/-- A table without a Date column. -/
def dfOnlyUnits : DataFrame := DataFrame.mk ["Units Sold"] [[.vint 5]] [0]

/-- Input table for the Type Normalizer witness. -/
def typedDf : DataFrame :=
  DataFrame.mk ["Date", "Product Name"] [[.vstr "2023-01-05", .vstr "Gadget"]] [0]

/-- A caller type map that names the Date column itself. -/
def typesMap : List (String × String) := [("Date", "str"), ("Product Name", "str")]

/-- The table the Type Normalizer produces on typedDf and typesMap. -/
def typedOut : DataFrame :=
  DataFrame.mk ["Date", "Product Name"] [[.vdate 2023 1 5, .vstr "Gadget"]] [0]

/-- Membership in the deduplicated list: the element occurs and was not seen. -/
theorem mem_dedupFirstAux {α : Type} [DecidableEq α] (a : α) :
    ∀ (l seen : List α), a ∈ dedupFirstAux seen l ↔ a ∈ l ∧ a ∉ seen := by
  intro l
  induction l with
  | nil => intro seen; simp [dedupFirstAux]
  | cons b l ih =>
    intro seen
    by_cases hb : b ∈ seen
    · rw [dedupFirstAux, if_pos hb, ih]
      constructor
      · rintro ⟨h1, h2⟩; exact ⟨List.mem_cons_of_mem _ h1, h2⟩
      · rintro ⟨h1, h2⟩
        rcases List.mem_cons.mp h1 with rfl | h1
        · exact absurd hb h2
        · exact ⟨h1, h2⟩
    · rw [dedupFirstAux, if_neg hb]
      constructor
      · intro h
        rcases List.mem_cons.mp h with rfl | h
        · exact ⟨List.mem_cons_self _ _, hb⟩
        · obtain ⟨h1, h2⟩ := (ih (b :: seen)).mp h
          exact ⟨List.mem_cons_of_mem _ h1, fun hs => h2 (List.mem_cons_of_mem _ hs)⟩
      · rintro ⟨h1, h2⟩
        by_cases hab : a = b
        · subst hab; exact List.mem_cons_self _ _
        · rcases List.mem_cons.mp h1 with rfl | h1
          · exact absurd rfl hab
          · refine List.mem_cons_of_mem _ ((ih (b :: seen)).mpr ⟨h1, ?_⟩)
            intro hs
            rcases List.mem_cons.mp hs with rfl | hs
            · exact hab rfl
            · exact h2 hs

/-- The deduplicated list has pairwise distinct entries. -/
theorem nodup_dedupFirstAux {α : Type} [DecidableEq α] :
    ∀ (l seen : List α), (dedupFirstAux seen l).Nodup := by
  intro l
  induction l with
  | nil => intro seen; simp [dedupFirstAux]
  | cons b l ih =>
    intro seen
    by_cases hb : b ∈ seen
    · rw [dedupFirstAux, if_pos hb]; exact ih seen
    · rw [dedupFirstAux, if_neg hb]
      refine List.nodup_cons.mpr ⟨?_, ih (b :: seen)⟩
      intro hmem
      exact ((mem_dedupFirstAux b l (b :: seen)).mp hmem).2 (List.mem_cons_self b seen)

/-- Deduplication only removes entries, in order. -/
theorem dedupFirstAux_sublist {α : Type} [DecidableEq α] :
    ∀ (l seen : List α), (dedupFirstAux seen l).Sublist l := by
  intro l
  induction l with
  | nil => intro seen; simp [dedupFirstAux]
  | cons b l ih =>
    intro seen
    by_cases hb : b ∈ seen
    · rw [dedupFirstAux, if_pos hb]
      exact (ih seen).trans (List.sublist_cons_self b l)
    · rw [dedupFirstAux, if_neg hb]
      exact (ih (b :: seen)).cons₂ b

/-- Filtering commutes with first-occurrence deduplication. -/
theorem filter_dedupFirstAux {α : Type} [DecidableEq α] (p : α → Bool) :
    ∀ (l seen : List α),
      (dedupFirstAux seen l).filter p = dedupFirstAux (seen.filter p) (l.filter p) := by
  intro l
  induction l with
  | nil => intro seen; simp [dedupFirstAux]
  | cons b l ih =>
    intro seen
    by_cases hp : p b
    · by_cases hb : b ∈ seen
      · rw [dedupFirstAux, if_pos hb, List.filter_cons_of_pos hp, dedupFirstAux,
          if_pos (List.mem_filter.mpr ⟨hb, hp⟩)]
        exact ih seen
      · have hb2 : b ∉ seen.filter p := fun hs => hb (List.mem_filter.mp hs).1
        rw [dedupFirstAux, if_neg hb, List.filter_cons_of_pos hp, List.filter_cons_of_pos hp,
          dedupFirstAux, if_neg hb2, ih (b :: seen), List.filter_cons_of_pos hp]
    · have hp2 : ¬ p b = true := hp
      by_cases hb : b ∈ seen
      · rw [dedupFirstAux, if_pos hb, List.filter_cons_of_neg hp2, ih seen]
      · rw [dedupFirstAux, if_neg hb, List.filter_cons_of_neg hp2,
          List.filter_cons_of_neg hp2, ih (b :: seen), List.filter_cons_of_neg hp2]

/-- Deduplication fixes a duplicate-free list disjoint from the seen set. -/
theorem dedupFirstAux_eq_self {α : Type} [DecidableEq α] :
    ∀ (l seen : List α), l.Nodup → (∀ a ∈ l, a ∉ seen) → dedupFirstAux seen l = l := by
  intro l
  induction l with
  | nil => intro seen _ _; rfl
  | cons b l ih =>
    intro seen hnd hdis
    rw [dedupFirstAux, if_neg (hdis b (List.mem_cons_self b l))]
    congr 1
    refine ih (b :: seen) (List.nodup_cons.mp hnd).2 ?_
    intro a ha hmem
    rcases List.mem_cons.mp hmem with rfl | hs
    · exact (List.nodup_cons.mp hnd).1 ha
    · exact hdis a (List.mem_cons_of_mem _ ha) hs

/-- A row passes the dropna filter exactly when none of its cells is missing. -/
theorem hasNA_eq_false {r : List Value} : hasNA r = false ↔ ∀ v ∈ r, v ≠ Value.na := by
  simp [hasNA]

/-- The Cleaner's output rows are pairwise distinct. -/
theorem data_cleaning_rows_nodup (df : DataFrame) : (data_cleaning df).rows.Nodup :=
  (nodup_dedupFirstAux df.rows []).filter _

/-- Every output row of the Cleaner passes the dropna filter. -/
theorem data_cleaning_rows_pass (df : DataFrame) :
    ∀ r ∈ (data_cleaning df).rows, (!hasNA r) = true :=
  fun r hr => (List.mem_filter.mp hr).2

/-- Claim C2: for every input table, the Cleaner's output has pairwise
distinct rows, no missing values anywhere, row index exactly 0..count-1 in
order, and its rows are the first occurrences, in stable source order, of
the missing-free rows of the input (hence a sublist of the input rows). -/
theorem claim_C2_cleaner_invariants (df : DataFrame) :
    (data_cleaning df).rows.Nodup ∧
    (∀ r ∈ (data_cleaning df).rows, ∀ v ∈ r, v ≠ Value.na) ∧
    (data_cleaning df).index = List.range (data_cleaning df).rows.length ∧
    (data_cleaning df).rows = dedupFirst (df.rows.filter (fun r => !hasNA r)) ∧
    (data_cleaning df).rows.Sublist df.rows := by
  refine ⟨data_cleaning_rows_nodup df, ?_, rfl, ?_, ?_⟩
  · intro r hr v hv
    have hp := data_cleaning_rows_pass df r hr
    have hf : hasNA r = false := by simpa using hp
    exact hasNA_eq_false.mp hf v hv
  · show (dedupFirstAux [] df.rows).filter _ = dedupFirstAux [] (df.rows.filter _)
    rw [filter_dedupFirstAux]
    rfl
  · exact (List.filter_sublist _).trans (dedupFirstAux_sublist df.rows [])

/-- Claim C4: the Cleaner is idempotent; cleaning a cleaned table changes
nothing. -/
theorem claim_C4_cleaner_idempotent (df : DataFrame) :
    data_cleaning (data_cleaning df) = data_cleaning df := by
  have hrows : (data_cleaning (data_cleaning df)).rows = (data_cleaning df).rows := by
    show (dedupFirstAux [] ((data_cleaning df).rows)).filter (fun r => !hasNA r)
      = (data_cleaning df).rows
    rw [dedupFirstAux_eq_self _ _ (data_cleaning_rows_nodup df) (by intro a _ h; simp at h)]
    exact List.filter_eq_self.mpr (data_cleaning_rows_pass df)
  ext1
  · rfl
  · exact hrows
  · show List.range ((data_cleaning (data_cleaning df)).rows.length) = _
    rw [hrows]; rfl

/-- Setting one position leaves the cells at other positions unchanged. -/
theorem getD_set_ne {α : Type} (d : α) :
    ∀ (l : List α) (i j : Nat) (v : α), i ≠ j → (l.set i v).getD j d = l.getD j d := by
  intro l
  induction l with
  | nil => intro i j v _; rfl
  | cons a l ih =>
    intro i j v hij
    cases i with
    | zero =>
      cases j with
      | zero => exact absurd rfl hij
      | succ j => simp [List.getD_cons_succ]
    | succ i =>
      cases j with
      | zero => simp
      | succ j =>
        simp only [List.set_cons_succ, List.getD_cons_succ]
        exact ih i j v (fun h => hij (by rw [h]))

/-- Setting a position inside the list stores the new cell there. -/
theorem getD_set_self {α : Type} (d : α) :
    ∀ (l : List α) (i : Nat) (v : α), i < l.length → (l.set i v).getD i d = v := by
  intro l
  induction l with
  | nil => intro i v h; simp at h
  | cons a l ih =>
    intro i v h
    cases i with
    | zero => rfl
    | succ i =>
      simp only [List.set_cons_succ, List.getD_cons_succ]
      exact ih i v (by simpa using h)

/-- Reading before the appended tail reads the original list. -/
theorem getD_append_left {α : Type} (d : α) :
    ∀ (l1 l2 : List α) (j : Nat), j < l1.length → (l1 ++ l2).getD j d = l1.getD j d := by
  intro l1
  induction l1 with
  | nil => intro l2 j h; simp at h
  | cons a l1 ih =>
    intro l2 j h
    cases j with
    | zero => rfl
    | succ j =>
      simp only [List.cons_append, List.getD_cons_succ]
      exact ih l2 j (by simpa using h)

/-- Reading at the old length reads the single appended cell. -/
theorem getD_append_self {α : Type} (d : α) :
    ∀ (l1 : List α) (v : α), (l1 ++ [v]).getD l1.length d = v := by
  intro l1
  induction l1 with
  | nil => intro v; rfl
  | cons a l1 ih => intro v; simpa using ih v

/-- A column name without a position is absent from the header. -/
theorem colPos_eq_none_iff (c : String) :
    ∀ l : List String, colPos c l = none ↔ c ∉ l := by
  intro l
  induction l with
  | nil => simp [colPos]
  | cons x xs ih =>
    by_cases hx : x = c
    · subst hx; simp [colPos]
    · rw [colPos, if_neg hx, List.mem_cons]
      simp only [Option.map_eq_none', ih]
      constructor
      · intro h hc
        rcases hc with rfl | hc
        · exact hx rfl
        · exact h hc
      · intro h hc
        exact h (Or.inr hc)

/-- The position a column name resolves to is in range and holds that name. -/
theorem colPos_get (c : String) :
    ∀ (l : List String) (i : Nat), colPos c l = some i → i < l.length ∧ l.getD i "" = c := by
  intro l
  induction l with
  | nil => intro i h; simp [colPos] at h
  | cons x xs ih =>
    intro i h
    by_cases hx : x = c
    · subst hx
      rw [colPos, if_pos rfl] at h
      obtain rfl : 0 = i := by simpa using h
      exact ⟨by simp, rfl⟩
    · rw [colPos, if_neg hx] at h
      cases hcp : colPos c xs with
      | none => rw [hcp] at h; simp at h
      | some j =>
        rw [hcp] at h
        obtain rfl : j + 1 = i := by simpa using h
        obtain ⟨h1, h2⟩ := ih j hcp
        exact ⟨by simpa using Nat.succ_lt_succ h1, by simpa using h2⟩

/-- A name found in the left part keeps its position after appending. -/
theorem colPos_append_left (c : String) :
    ∀ (l1 l2 : List String) (i : Nat), colPos c l1 = some i → colPos c (l1 ++ l2) = some i := by
  intro l1
  induction l1 with
  | nil => intro l2 i h; simp [colPos] at h
  | cons x xs ih =>
    intro l2 i h
    by_cases hx : x = c
    · subst hx
      rw [colPos, if_pos rfl] at h
      rw [List.cons_append, colPos, if_pos rfl]
      exact h
    · rw [colPos, if_neg hx] at h
      rw [List.cons_append, colPos, if_neg hx]
      cases hcp : colPos c xs with
      | none => rw [hcp] at h; simp at h
      | some j =>
        rw [hcp] at h
        rw [ih l2 j hcp]
        exact h

/-- Appending a fresh column name places it at the old header length. -/
theorem colPos_append_self (c : String) :
    ∀ l : List String, colPos c l = none → colPos c (l ++ [c]) = some l.length := by
  intro l
  induction l with
  | nil => intro _; simp [colPos]
  | cons x xs ih =>
    intro h
    by_cases hx : x = c
    · subst hx; rw [colPos, if_pos rfl] at h; simp at h
    · rw [colPos, if_neg hx] at h
      have h2 : colPos c xs = none := by
        cases hcp : colPos c xs with
        | none => rfl
        | some j => rw [hcp] at h; simp at h
      rw [List.cons_append, colPos, if_neg hx, ih h2]
      simp

/-- Writing a column at one position leaves the cells of another position
unchanged, row by row. -/
theorem zipmap_set_col_ne {i j : Nat} (hij : i ≠ j) :
    ∀ (rows : List (List Value)) (vs : List Value),
      (((rows.zip vs).map (fun p => p.1.set i p.2)).map (fun r => r.getD j Value.na))
        = (rows.zip vs).map (fun p => p.1.getD j Value.na) := by
  intro rows
  induction rows with
  | nil => intro vs; rfl
  | cons r rows ih =>
    intro vs
    cases vs with
    | nil => rfl
    | cons v vs =>
      simp only [List.zip_cons_cons, List.map_cons]
      rw [getD_set_ne Value.na r i j v hij, ih vs]

/-- Writing a column stores exactly the written cells at its position. -/
theorem zipmap_set_col_self (i : Nat) :
    ∀ (rows : List (List Value)) (vs : List Value), rows.length = vs.length →
      (∀ r ∈ rows, i < r.length) →
      (((rows.zip vs).map (fun p => p.1.set i p.2)).map (fun r => r.getD i Value.na)) = vs := by
  intro rows
  induction rows with
  | nil =>
    intro vs h _
    cases vs with
    | nil => rfl
    | cons v vs => simp at h
  | cons r rows ih =>
    intro vs h hlt
    cases vs with
    | nil => simp at h
    | cons v vs =>
      simp only [List.zip_cons_cons, List.map_cons]
      rw [getD_set_self Value.na r i v (hlt r (List.mem_cons_self r rows)),
        ih vs (by simpa using h) (fun r2 hr2 => hlt r2 (List.mem_cons_of_mem _ hr2))]

/-- Appending a cell to each row leaves the old positions unchanged. -/
theorem zipmap_append_col_ne (j : Nat) :
    ∀ (rows : List (List Value)) (vs : List Value), (∀ r ∈ rows, j < r.length) →
      (((rows.zip vs).map (fun p => p.1 ++ [p.2])).map (fun r => r.getD j Value.na))
        = (rows.zip vs).map (fun p => p.1.getD j Value.na) := by
  intro rows
  induction rows with
  | nil => intro vs _; rfl
  | cons r rows ih =>
    intro vs hlt
    cases vs with
    | nil => rfl
    | cons v vs =>
      simp only [List.zip_cons_cons, List.map_cons]
      rw [getD_append_left Value.na r [v] j (hlt r (List.mem_cons_self r rows)),
        ih vs (fun r2 hr2 => hlt r2 (List.mem_cons_of_mem _ hr2))]

/-- In a table whose rows all have width n, the appended column sits at
position n and holds exactly the written cells. -/
theorem zipmap_append_col_self (n : Nat) :
    ∀ (rows : List (List Value)) (vs : List Value), rows.length = vs.length →
      (∀ r ∈ rows, r.length = n) →
      (((rows.zip vs).map (fun p => p.1 ++ [p.2])).map (fun r => r.getD n Value.na)) = vs := by
  intro rows
  induction rows with
  | nil =>
    intro vs h _
    cases vs with
    | nil => rfl
    | cons v vs => simp at h
  | cons r rows ih =>
    intro vs h hlen
    cases vs with
    | nil => simp at h
    | cons v vs =>
      simp only [List.zip_cons_cons, List.map_cons]
      have hr : r.length = n := hlen r (List.mem_cons_self r rows)
      rw [← hr, getD_append_self Value.na r v, hr,
        ih vs (by simpa using h) (fun r2 hr2 => hlen r2 (List.mem_cons_of_mem _ hr2))]

/-- A zip with a list of the same length projects back to the first list. -/
theorem zipmap_fst {α β : Type} (f : α → γ) :
    ∀ (l1 : List α) (l2 : List β), l1.length = l2.length →
      (l1.zip l2).map (fun p => f p.1) = l1.map f := by
  intro l1
  induction l1 with
  | nil => intro l2 _; rfl
  | cons a l1 ih =>
    intro l2 h
    cases l2 with
    | nil => simp at h
    | cons b l2 =>
      simp only [List.zip_cons_cons, List.map_cons]
      rw [ih l2 (by simpa using h)]

/-- Column assignment keeps the row count (for value lists of full height). -/
theorem setCol_rows_length (df : DataFrame) (c : String) (vs : List Value)
    (hlen : vs.length = df.rows.length) :
    (setCol df c vs).rows.length = df.rows.length := by
  unfold setCol
  cases hcp : colPos c df.cols <;>
    simp [List.length_zip, hlen.symm]

/-- Column assignment preserves well-formedness. -/
theorem setCol_wf (df : DataFrame) (c : String) (vs : List Value)
    (hwf : Wf df) (hlen : vs.length = df.rows.length) :
    Wf (setCol df c vs) := by
  unfold setCol
  cases hcp : colPos c df.cols with
  | some i =>
    intro r hr
    simp only [List.mem_map] at hr
    obtain ⟨p, hp, rfl⟩ := hr
    have := List.of_mem_zip hp
    simp only [List.length_set]
    exact hwf p.1 this.1
  | none =>
    intro r hr
    simp only [List.mem_map] at hr
    obtain ⟨p, hp, rfl⟩ := hr
    have := List.of_mem_zip hp
    simp only [List.length_append, List.length_cons, List.length_nil]
    rw [hwf p.1 this.1]

/-- The header after a column assignment: unchanged when the name was
present, extended by the name otherwise. -/
theorem setCol_cols (df : DataFrame) (c : String) (vs : List Value) :
    (setCol df c vs).cols = df.cols ∨ (setCol df c vs).cols = df.cols ++ [c] := by
  unfold setCol
  cases colPos c df.cols with
  | some i => exact Or.inl rfl
  | none => exact Or.inr rfl

/-- The index list survives a column assignment. -/
theorem setCol_index (df : DataFrame) (c : String) (vs : List Value) :
    (setCol df c vs).index = df.index := by
  unfold setCol
  cases colPos c df.cols <;> rfl

/-- A column read succeeds exactly when the name is in the header. -/
theorem getCol_eq_none_iff (df : DataFrame) (c : String) :
    getCol df c = none ↔ c ∉ df.cols := by
  rw [getCol, Option.map_eq_none', colPos_eq_none_iff]

/-- A successful column read returns one cell per row. -/
theorem getCol_length (df : DataFrame) (c : String) (vs : List Value)
    (h : getCol df c = some vs) : vs.length = df.rows.length := by
  rw [getCol] at h
  cases hcp : colPos c df.cols with
  | none => rw [hcp] at h; simp at h
  | some i =>
    rw [hcp] at h
    simp only [Option.map_some'] at h
    injection h with h2
    simp [← h2]

/-- Reading back the column just written returns the written cells. -/
theorem getCol_setCol_self (df : DataFrame) (c : String) (vs : List Value)
    (hwf : Wf df) (hlen : vs.length = df.rows.length) :
    getCol (setCol df c vs) c = some vs := by
  cases hcp : colPos c df.cols with
  | some i =>
    have hcols : (setCol df c vs).cols = df.cols := by unfold setCol; rw [hcp]
    have hrows : (setCol df c vs).rows = (df.rows.zip vs).map (fun p => p.1.set i p.2) := by
      unfold setCol; rw [hcp]
    obtain ⟨hi, _⟩ := colPos_get c df.cols i hcp
    rw [getCol, hcols, hcp, Option.map_some', hrows,
      zipmap_set_col_self i df.rows vs hlen.symm (fun r hr => (hwf r hr) ▸ hi)]
  | none =>
    have hcols : (setCol df c vs).cols = df.cols ++ [c] := by unfold setCol; rw [hcp]
    have hrows : (setCol df c vs).rows = (df.rows.zip vs).map (fun p => p.1 ++ [p.2]) := by
      unfold setCol; rw [hcp]
    rw [getCol, hcols, colPos_append_self c df.cols hcp, Option.map_some', hrows,
      zipmap_append_col_self df.cols.length df.rows vs hlen.symm hwf]

/-- Reading another column is unaffected by a column assignment. -/
theorem getCol_setCol_other (df : DataFrame) (c c2 : String) (vs : List Value)
    (hne : c2 ≠ c) (hwf : Wf df) (hlen : vs.length = df.rows.length) :
    getCol (setCol df c2 vs) c = getCol df c := by
  cases hcp2 : colPos c2 df.cols with
  | some p =>
    have hcols : (setCol df c2 vs).cols = df.cols := by unfold setCol; rw [hcp2]
    have hrows : (setCol df c2 vs).rows = (df.rows.zip vs).map (fun q => q.1.set p q.2) := by
      unfold setCol; rw [hcp2]
    rw [getCol, getCol, hcols, hrows]
    cases hcp : colPos c df.cols with
    | none => rfl
    | some j =>
      obtain ⟨hjl, hjn⟩ := colPos_get c df.cols j hcp
      obtain ⟨hpl, hpn⟩ := colPos_get c2 df.cols p hcp2
      have hpj : p ≠ j := by
        intro h
        exact hne (by rw [← hpn, h, hjn])
      simp only [Option.map_some']
      rw [zipmap_set_col_ne hpj df.rows vs, zipmap_fst (fun r => r.getD j Value.na) df.rows vs hlen.symm]
  | none =>
    have hcols : (setCol df c2 vs).cols = df.cols ++ [c2] := by unfold setCol; rw [hcp2]
    have hrows : (setCol df c2 vs).rows = (df.rows.zip vs).map (fun q => q.1 ++ [q.2]) := by
      unfold setCol; rw [hcp2]
    rw [getCol, getCol, hcols, hrows]
    cases hcp : colPos c df.cols with
    | none =>
      have : colPos c (df.cols ++ [c2]) = none := by
        rw [colPos_eq_none_iff]
        intro hm
        rcases List.mem_append.mp hm with hm | hm
        · exact (colPos_eq_none_iff c df.cols).mp hcp hm
        · exact hne (List.mem_singleton.mp hm).symm
      rw [this]
      rfl
    | some j =>
      obtain ⟨hjl, _⟩ := colPos_get c df.cols j hcp
      rw [colPos_append_left c df.cols [c2] j hcp]
      simp only [Option.map_some']
      rw [zipmap_append_col_ne j df.rows vs (fun r hr => (hwf r hr) ▸ hjl),
        zipmap_fst (fun r => r.getD j Value.na) df.rows vs hlen.symm]

/-- When every element converts, mapOpt returns the pointwise map. -/
theorem mapOpt_eq_some_of_forall {α β : Type} (f : α → Option β) (g : α → β) :
    ∀ l : List α, (∀ a ∈ l, f a = some (g a)) → mapOpt f l = some (l.map g) := by
  intro l
  induction l with
  | nil => intro _; rfl
  | cons a l ih =>
    intro h
    rw [mapOpt, h a (List.mem_cons_self a l), ih (fun b hb => h b (List.mem_cons_of_mem _ hb))]
    rfl

/-- A successful mapOpt preserves the length. -/
theorem mapOpt_length {α β : Type} (f : α → Option β) :
    ∀ (l : List α) (l2 : List β), mapOpt f l = some l2 → l2.length = l.length := by
  intro l
  induction l with
  | nil =>
    intro l2 h
    rw [mapOpt] at h
    injection h with h2
    simp [← h2]
  | cons a l ih =>
    intro l2 h
    rw [mapOpt] at h
    cases hfa : f a with
    | none => rw [hfa] at h; simp at h
    | some b =>
      rw [hfa] at h
      cases hml : mapOpt f l with
      | none => rw [hml] at h; simp at h
      | some bs =>
        rw [hml] at h
        injection h with h2
        rw [← h2]
        simp [ih bs hml]

/-- Membership after inserting a key. -/
theorem mem_insertKey (a k : Nat) : ∀ l : List Nat, a ∈ insertKey k l ↔ a = k ∨ a ∈ l := by
  intro l
  induction l with
  | nil => simp [insertKey]
  | cons x xs ih =>
    by_cases h1 : k < x
    · rw [insertKey, if_pos h1]
      simp [List.mem_cons]
    · by_cases h2 : k = x
      · subst h2
        rw [insertKey, if_neg h1, if_pos rfl]
        simp only [List.mem_cons]
        tauto
      · rw [insertKey, if_neg h1, if_neg h2]
        simp only [List.mem_cons, ih]
        tauto

/-- Inserting a key preserves strict ascending sortedness. -/
theorem sorted_insertKey (k : Nat) :
    ∀ l : List Nat, List.Sorted (· < ·) l → List.Sorted (· < ·) (insertKey k l) := by
  intro l
  induction l with
  | nil => intro _; simp [insertKey]
  | cons x xs ih =>
    intro hs
    rw [List.sorted_cons] at hs
    obtain ⟨hx, hxs⟩ := hs
    by_cases h1 : k < x
    · rw [insertKey, if_pos h1]
      refine List.sorted_cons.mpr ⟨?_, List.sorted_cons.mpr ⟨hx, hxs⟩⟩
      intro b hb
      rcases List.mem_cons.mp hb with rfl | hb
      · exact h1
      · exact h1.trans (hx b hb)
    · by_cases h2 : k = x
      · rw [insertKey, if_neg h1, if_pos h2]
        exact List.sorted_cons.mpr ⟨hx, hxs⟩
      · rw [insertKey, if_neg h1, if_neg h2]
        refine List.sorted_cons.mpr ⟨?_, ih hxs⟩
        intro b hb
        rcases (mem_insertKey b k xs).mp hb with rfl | hb
        · omega
        · exact hx b hb

/-- The groupby key list is strictly ascending. -/
theorem sortedKeys_sorted : ∀ l : List Nat, List.Sorted (· < ·) (sortedKeys l) := by
  intro l
  induction l with
  | nil => simp [sortedKeys]
  | cons a l ih =>
    rw [sortedKeys, List.foldr_cons]
    exact sorted_insertKey a _ ih

/-- The groupby keys are exactly the month values present. -/
theorem mem_sortedKeys (a : Nat) : ∀ l : List Nat, a ∈ sortedKeys l ↔ a ∈ l := by
  intro l
  induction l with
  | nil => simp [sortedKeys]
  | cons b l ih =>
    rw [sortedKeys, List.foldr_cons]
    rw [mem_insertKey]
    rw [List.mem_cons]
    rw [← sortedKeys]
    rw [ih]

/-- Evaluation of the Aggregator on the specification scenario: the January
mean is (10+20)/2 = 15 and the February mean is 30, and the caller's table
gains the month column. -/
theorem scenario_analysis_eq :
    data_analysis scenarioDf = .ok (scenarioD2, scenarioAgg) := by
  have h1 : groupMean [1, 1, 2] [((10:Int):ℚ), ((20:Int):ℚ), ((30:Int):ℚ)] 1 = 15 := by
    norm_num [groupMean, groupVals]
  have h2 : groupMean [1, 1, 2] [((10:Int):ℚ), ((20:Int):ℚ), ((30:Int):ℚ)] 2 = 30 := by
    norm_num [groupMean, groupVals]
  have e : data_analysis scenarioDf = .ok (scenarioD2,
      [(1, groupMean [1, 1, 2] [((10:Int):ℚ), ((20:Int):ℚ), ((30:Int):ℚ)] 1),
       (2, groupMean [1, 1, 2] [((10:Int):ℚ), ((20:Int):ℚ), ((30:Int):ℚ)] 2)]) := rfl
  rw [e, h1, h2]
  rfl

/-- Claim C6: whenever the Visualizer succeeds it returns the very aggregate
it was given (pass-through). -/
theorem claim_C6_visualizer_pass_through (new_df : List (Nat × ℚ)) (vis_type : String)
    (out : List (Nat × ℚ) × String)
    (h : data_visualization new_df vis_type = .ok out) : out.1 = new_df := by
  unfold data_visualization at h
  split at h
  · split at h
    · exact absurd h (by simp)
    · injection h with h2
      rw [← h2]
  · exact absurd h (by simp)

/-- Witness for claim C6 at the scenario aggregate and the bar kind. -/
theorem claim_C6_witness :
    ((scenarioAgg, pngPath) : List (Nat × ℚ) × String).1 = scenarioAgg :=
  claim_C6_visualizer_pass_through scenarioAgg "bar" (scenarioAgg, pngPath) rfl

/-- Claim C7: the scatter kind (reserved for two-dimensional tables, hence
outside the set accepted for the aggregate series) fails with the
chart-kind error, while bar and line succeed. -/
theorem claim_C7_chart_kind_errors (agg : List (Nat × ℚ)) :
    data_visualization agg "scatter" = .error .unsupportedChartKind ∧
    data_visualization agg "bar" = .ok (agg, pngPath) ∧
    data_visualization agg "line" = .ok (agg, pngPath) :=
  ⟨rfl, rfl, rfl⟩

/-- Claim C3 (refuting evaluation): on the scenario aggregate the Persister
writes a file whose header names a single column and whose data lines hold
a single field each — the month keys are absent, because to_csv is called
with index=False on a series whose index carries the months. -/
theorem claim_C3_persister_drops_month :
    save_to_csv scenarioAgg "average_units_sold_by_month.csv"
      = ([["Units Sold"], ["15.0"], ["30.0"]], "average_units_sold_by_month.csv") := rfl

/-- Inversion of a successful Aggregator run: it extracted a date column and
month keys, wrote the month column through to the caller's table, read the
units column from that mutated table, and grouped by sorted month keys. -/
theorem data_analysis_ok_inv (df : DataFrame) (d2 : DataFrame) (agg : List (Nat × ℚ))
    (h : data_analysis df = .ok (d2, agg)) :
    ∃ dateVals months unitVals nums,
      getCol df "Date" = some dateVals ∧
      mapOpt Value.monthOf? dateVals = some months ∧
      setCol df "month" (months.map (fun m => Value.vint (Int.ofNat m))) = d2 ∧
      getCol d2 "Units Sold" = some unitVals ∧
      mapOpt Value.toRat? unitVals = some nums ∧
      agg = (sortedKeys months).map (fun k => (k, groupMean months nums k)) := by
  simp only [data_analysis] at h
  split at h
  · exact absurd h (by simp)
  · rename_i dateVals h1
    split at h
    · exact absurd h (by simp)
    · rename_i months h2
      split at h
      · exact absurd h (by simp)
      · rename_i unitVals h3
        split at h
        · exact absurd h (by simp)
        · rename_i nums h4
          injection h with h5
          injection h5 with hd ha
          exact ⟨dateVals, months, unitVals, nums, h1, h2, hd, hd ▸ h3, h4, ha.symm⟩

/-- Claim C9: for every table on which the Aggregator succeeds, the keys of
the produced aggregate appear in strictly ascending month order. -/
theorem claim_C9_keys_sorted (df : DataFrame) (d2 : DataFrame) (agg : List (Nat × ℚ))
    (h : data_analysis df = .ok (d2, agg)) :
    List.Sorted (· < ·) (agg.map Prod.fst) := by
  obtain ⟨dateVals, months, unitVals, nums, h1, h2, hd, h3, h4, hagg⟩ :=
    data_analysis_ok_inv df d2 agg h
  rw [hagg, List.map_map]
  have he : (Prod.fst ∘ fun k => ((k : Nat), groupMean months nums k)) = id := rfl
  rw [he, List.map_id]
  exact sortedKeys_sorted months

/-- Witness for claim C9 at the specification scenario. -/
theorem claim_C9_witness : List.Sorted (· < ·) (scenarioAgg.map Prod.fst) :=
  claim_C9_keys_sorted scenarioDf scenarioD2 scenarioAgg scenario_analysis_eq

/-- Claim C10 (refutation): the Aggregator does not leave its input table
unchanged; after the scenario run the caller's table is the mutated
scenarioD2, which carries a month column and differs from the input. -/
theorem claim_C10_counterexample :
    data_analysis scenarioDf = .ok (scenarioD2, scenarioAgg) ∧ scenarioD2 ≠ scenarioDf :=
  ⟨scenario_analysis_eq, by decide⟩

/-- Claim C10 (amended): the only in-place effect of any stage is the
Aggregator's month column: all other columns of the caller's table read
back unchanged after the call, the month column is present afterwards, and
the row index is untouched. -/
theorem claim_C10_amended (df d2 : DataFrame) (agg : List (Nat × ℚ))
    (hwf : Wf df) (h : data_analysis df = .ok (d2, agg)) :
    (∀ c, c ≠ "month" → getCol d2 c = getCol df c) ∧
    (getCol d2 "month").isSome = true ∧ d2.index = df.index := by
  obtain ⟨dateVals, months, unitVals, nums, h1, h2, hd, h3, h4, hagg⟩ :=
    data_analysis_ok_inv df d2 agg h
  have hlm : months.length = dateVals.length := mapOpt_length _ dateVals months h2
  have hld : dateVals.length = df.rows.length := getCol_length df "Date" dateVals h1
  have hlen : (months.map (fun m => Value.vint (Int.ofNat m))).length = df.rows.length := by
    simp [hlm, hld]
  refine ⟨?_, ?_, ?_⟩
  · intro c hc
    rw [← hd]
    exact getCol_setCol_other df c "month" _ (Ne.symm hc) hwf hlen
  · rw [← hd, getCol_setCol_self df "month" _ hwf hlen]
    rfl
  · rw [← hd, setCol_index]

/-- Witness for the amended claim C10 at the specification scenario. -/
theorem claim_C10_amended_witness :
    (∀ c, c ≠ "month" → getCol scenarioD2 c = getCol scenarioDf c) ∧
    (getCol scenarioD2 "month").isSome = true ∧ scenarioD2.index = scenarioDf.index :=
  claim_C10_amended scenarioDf scenarioD2 scenarioAgg (by decide) scenario_analysis_eq

/-- Claim C8 (refuting evaluation): a table whose Date column holds text and
which lacks Units Sold makes the Aggregator fail with the datetimelike
accessor error, not with the missing-column error the claim requires. -/
theorem claim_C8_counterexample :
    data_analysis dfDateText = .error PipeError.notDatetime := rfl

/-- Claim C8 (amended): a missing Date column gives the missing-column
error for Date; a missing Units Sold column gives the missing-column error
for Units Sold provided the Date column is present with temporal cells
(otherwise the datetimelike accessor fails first). -/
theorem claim_C8_amended (df : DataFrame) :
    ("Date" ∉ df.cols → data_analysis df = .error (.missingColumn "Date")) ∧
    (∀ ds, getCol df "Date" = some ds → (∀ v ∈ ds, v.isTemporal = true) →
      "Units Sold" ∉ df.cols → data_analysis df = .error (.missingColumn "Units Sold")) := by
  constructor
  · intro hnm
    have h1 : getCol df "Date" = none := (getCol_eq_none_iff df "Date").mpr hnm
    simp [data_analysis, h1]
  · intro ds h1 ht hnus
    have h2 : mapOpt Value.monthOf? ds = some (ds.map (fun v => (v.monthOf?).getD 0)) := by
      apply mapOpt_eq_some_of_forall
      intro v hv
      have hvt := ht v hv
      cases v with
      | vdate y m d => rfl
      | vstr s => simp [Value.isTemporal] at hvt
      | vint n => simp [Value.isTemporal] at hvt
      | vfloat q => simp [Value.isTemporal] at hvt
      | na => simp [Value.isTemporal] at hvt
    have h3 : getCol (setCol df "month"
        ((ds.map (fun v => (v.monthOf?).getD 0)).map (fun m => Value.vint (Int.ofNat m))))
        "Units Sold" = none := by
      rw [getCol_eq_none_iff]
      rcases setCol_cols df "month"
          ((ds.map (fun v => (v.monthOf?).getD 0)).map (fun m => Value.vint (Int.ofNat m)))
        with hc | hc
      · rw [hc]; exact hnus
      · rw [hc]
        intro hm
        rcases List.mem_append.mp hm with hm | hm
        · exact hnus hm
        · simp at hm
    simp only [data_analysis, h1, h2, h3]

/-- Witness for the amended claim C8 on a table without a Date column. -/
theorem claim_C8_witness :
    data_analysis dfOnlyUnits = .error (.missingColumn "Date") :=
  (claim_C8_amended dfOnlyUnits).1 (by decide)

/-- Every output element of a successful mapOpt is the image of an input. -/
theorem mapOpt_mem {α β : Type} (f : α → Option β) :
    ∀ (l : List α) (l2 : List β), mapOpt f l = some l2 → ∀ b ∈ l2, ∃ a ∈ l, f a = some b := by
  intro l
  induction l with
  | nil =>
    intro l2 h b hb
    rw [mapOpt] at h
    injection h with h2
    rw [← h2] at hb
    simp at hb
  | cons a l ih =>
    intro l2 h b hb
    rw [mapOpt] at h
    cases hfa : f a with
    | none => rw [hfa] at h; simp at h
    | some b1 =>
      rw [hfa] at h
      cases hml : mapOpt f l with
      | none => rw [hml] at h; simp at h
      | some bs =>
        rw [hml] at h
        injection h with h2
        rw [← h2] at hb
        rcases List.mem_cons.mp hb with rfl | hb
        · exact ⟨a, List.mem_cons_self a l, hfa⟩
        · obtain ⟨a2, ha2, hfa2⟩ := ih bs hml b hb
          exact ⟨a2, List.mem_cons_of_mem _ ha2, hfa2⟩

/-- A parsed date text is a calendar date. -/
theorem parseDateText_datetimeLike (s : String) (w : Value)
    (h : parseDateText s = some w) : w.datetimeLike = true := by
  simp only [parseDateText] at h
  split at h
  · split at h
    · split at h
      · injection h with h2
        rw [← h2]
        rfl
      · exact absurd h (by simp)
    · exact absurd h (by simp)
  · exact absurd h (by simp)

/-- Whatever to_datetime returns on a cell is datetimelike. -/
theorem parseDate_datetimeLike (v w : Value) (h : parseDate v = some w) :
    w.datetimeLike = true := by
  cases v with
  | vdate y m d => injection h with h2; rw [← h2]; rfl
  | vstr s => exact parseDateText_datetimeLike s w h
  | na => injection h with h2; rw [← h2]; rfl
  | vint n => exact absurd h (by simp [parseDate])
  | vfloat q => exact absurd h (by simp [parseDate])

/-- A single astype cast preserves well-formedness. -/
theorem astype1_wf (df : DataFrame) (c t : String) (d : DataFrame)
    (h : astype1 df c t = .ok d) (hwf : Wf df) : Wf d := by
  simp only [astype1] at h
  split at h
  · split at h
    · exact absurd h (by simp)
    · rename_i vs hvs
      split at h
      · exact absurd h (by simp)
      · rename_i ws hws
        injection h with h5
        rw [← h5]
        refine setCol_wf df c ws hwf ?_
        rw [mapOpt_length (castVal t) vs ws hws, getCol_length df c vs hvs]
  · exact absurd h (by simp)

/-- The full astype pass preserves well-formedness. -/
theorem astype_wf :
    ∀ (m : List (String × String)) (df d : DataFrame), astype df m = .ok d → Wf df → Wf d := by
  intro m
  induction m with
  | nil =>
    intro df d h hwf
    simp only [astype] at h
    injection h with h5
    rw [← h5]
    exact hwf
  | cons p rest ih =>
    intro df d h hwf
    obtain ⟨c, t⟩ := p
    simp only [astype] at h
    split at h
    · rename_i d1 h1
      exact ih d1 d h (astype1_wf df c t d1 h1 hwf)
    · exact absurd h (by simp)

/-- Claim C5: whenever the Type Normalizer succeeds, every cell of the Date
column of its output is datetimelike — for every caller-supplied type map,
whether or not (and however) it mentions the Date column, because the
to_datetime assignment runs unconditionally after the casts. -/
theorem claim_C5_date_parse_unconditional (df : DataFrame) (m : List (String × String))
    (out : DataFrame) (hwf : Wf df) (h : convert_dtypes df m = .ok out) :
    ∀ vs, getCol out "Date" = some vs → ∀ v ∈ vs, v.datetimeLike = true := by
  simp only [convert_dtypes] at h
  split at h
  · exact absurd h (by simp)
  · rename_i d hast
    split at h
    · exact absurd h (by simp)
    · rename_i dvs hdvs
      split at h
      · exact absurd h (by simp)
      · rename_i ps hps
        injection h with h5
        have hwd : Wf d := astype_wf m df d hast hwf
        have hlen : ps.length = d.rows.length := by
          rw [mapOpt_length parseDate dvs ps hps, getCol_length d "Date" dvs hdvs]
        intro vs hvs
        rw [← h5, getCol_setCol_self d "Date" ps hwd hlen] at hvs
        injection hvs with h6
        intro v hv
        rw [← h6] at hv
        obtain ⟨u, _, hu⟩ := mapOpt_mem parseDate dvs ps hps v hv
        exact parseDate_datetimeLike u v hu

/-- Witness for claim C5: a type map that itself names the Date column does
not stop the date parse; the parsed scenario cell is datetimelike. -/
theorem claim_C5_witness : Value.datetimeLike (Value.vdate 2023 1 5) = true :=
  claim_C5_date_parse_unconditional typedDf typesMap typedOut (by decide) rfl
    [Value.vdate 2023 1 5] rfl (Value.vdate 2023 1 5) (by decide)

/-- A temporal cell's month extraction succeeds with its month component. -/
theorem monthOf_of_temporal (v : Value) (h : v.isTemporal = true) :
    v.monthOf? = some ((v.monthOf?).getD 0) := by
  cases v with
  | vdate y m d => rfl
  | vstr s => simp [Value.isTemporal] at h
  | vint n => simp [Value.isTemporal] at h
  | vfloat q => simp [Value.isTemporal] at h
  | na => simp [Value.isTemporal] at h

/-- Month extraction over a temporal column succeeds pointwise. -/
theorem mapOpt_monthOf_of_temporal (ds : List Value)
    (ht : ∀ v ∈ ds, v.isTemporal = true) :
    mapOpt Value.monthOf? ds = some (ds.map (fun v => (v.monthOf?).getD 0)) :=
  mapOpt_eq_some_of_forall _ _ ds (fun v hv => monthOf_of_temporal v (ht v hv))

/-- Numeric reading over a numeric column succeeds pointwise. -/
theorem mapOpt_toRat_of_isSome (us : List Value)
    (hn : ∀ v ∈ us, (v.toRat?).isSome = true) :
    mapOpt Value.toRat? us = some (us.map (fun v => (v.toRat?).getD 0)) := by
  apply mapOpt_eq_some_of_forall
  intro v hv
  have h := hn v hv
  cases hvt : v.toRat? with
  | none => rw [hvt] at h; simp at h
  | some q => rfl

/-- Comparing boxed keys is comparing the keys. -/
theorem some_beq_some (a b : Nat) : ((some a == some b) : Bool) = (a == b) := by
  by_cases h : a = b
  · subst h; simp
  · simp [h, Ne.symm h]

/-- A successful column read determines a position and the cell list. -/
theorem getCol_eq_some (df : DataFrame) (c : String) (vs : List Value)
    (h : getCol df c = some vs) :
    ∃ i, colPos c df.cols = some i ∧ vs = df.rows.map (fun r => r.getD i Value.na) := by
  rw [getCol] at h
  cases hcp : colPos c df.cols with
  | none => rw [hcp] at h; simp at h
  | some i =>
    rw [hcp] at h
    simp only [Option.map_some'] at h
    injection h with h2
    exact ⟨i, rfl, h2.symm⟩

/-- Claim C1: on a well-formed table whose Date column is temporal and whose
Units Sold column is numeric, the Aggregator succeeds; the keys of its
aggregate are exactly the distinct months present among the rows (years not
distinguished), and the value at each key is the unweighted arithmetic mean
of Units Sold over the rows with that month, read row-wise as the
specification words it. -/
theorem claim_C1_aggregator_monthly_mean (df : DataFrame) (ds us : List Value)
    (hwf : Wf df)
    (hds : getCol df "Date" = some ds) (ht : ∀ v ∈ ds, v.isTemporal = true)
    (hus : getCol df "Units Sold" = some us) (hn : ∀ v ∈ us, (v.toRat?).isSome = true) :
    exceptOk (data_analysis df) = true ∧
    ∀ d2 agg, data_analysis df = .ok (d2, agg) →
      ((∀ k, k ∈ agg.map Prod.fst ↔ ∃ r ∈ df.rows, rowMonth df r = some k) ∧
       (∀ k q, (k, q) ∈ agg → q = specMean df k)) := by
  have h2 : mapOpt Value.monthOf? ds = some (ds.map (fun v => (v.monthOf?).getD 0)) :=
    mapOpt_monthOf_of_temporal ds ht
  have hlen : ((ds.map (fun v => (v.monthOf?).getD 0)).map
      (fun m => Value.vint (Int.ofNat m))).length = df.rows.length := by
    simp only [List.length_map]
    exact getCol_length df "Date" ds hds
  have h3 : getCol (setCol df "month"
      ((ds.map (fun v => (v.monthOf?).getD 0)).map (fun m => Value.vint (Int.ofNat m))))
      "Units Sold" = some us := by
    rw [getCol_setCol_other df "Units Sold" "month" _ (by decide) hwf hlen]
    exact hus
  have h4 : mapOpt Value.toRat? us = some (us.map (fun v => (v.toRat?).getD 0)) :=
    mapOpt_toRat_of_isSome us hn
  have hEq : data_analysis df = .ok
      (setCol df "month"
        ((ds.map (fun v => (v.monthOf?).getD 0)).map (fun m => Value.vint (Int.ofNat m))),
       (sortedKeys (ds.map (fun v => (v.monthOf?).getD 0))).map
        (fun k => (k, groupMean (ds.map (fun v => (v.monthOf?).getD 0))
          (us.map (fun v => (v.toRat?).getD 0)) k))) := by
    simp only [data_analysis, hds, h2, h3, h4]
  obtain ⟨i, hcpi, hdsEq⟩ := getCol_eq_some df "Date" ds hds
  obtain ⟨j, hcpj, husEq⟩ := getCol_eq_some df "Units Sold" us hus
  have hM : ds.map (fun v => (v.monthOf?).getD 0)
      = df.rows.map (fun r => ((r.getD i Value.na).monthOf?).getD 0) := by
    rw [hdsEq, List.map_map]
    rfl
  have hN : us.map (fun v => (v.toRat?).getD 0)
      = df.rows.map (fun r => ((r.getD j Value.na).toRat?).getD 0) := by
    rw [husEq, List.map_map]
    rfl
  have hrm : ∀ r ∈ df.rows,
      rowMonth df r = some (((r.getD i Value.na).monthOf?).getD 0) := by
    intro r hr
    have hmem : r.getD i Value.na ∈ ds := by
      rw [hdsEq]
      exact List.mem_map_of_mem _ hr
    simp only [rowMonth, hcpi]
    exact monthOf_of_temporal _ (ht _ hmem)
  have hru : ∀ r ∈ df.rows, rowUnits df r = ((r.getD j Value.na).toRat?).getD 0 := by
    intro r _
    simp only [rowUnits, hcpj]
  refine ⟨by rw [hEq]; rfl, ?_⟩
  intro d2 agg h5
  rw [hEq] at h5
  injection h5 with h6
  injection h6 with hd2 hagg
  subst hagg
  constructor
  · intro k
    rw [List.map_map]
    have hid : (Prod.fst ∘ fun k => ((k : Nat), groupMean
        (ds.map (fun v => (v.monthOf?).getD 0)) (us.map (fun v => (v.toRat?).getD 0)) k))
        = id := rfl
    rw [hid, List.map_id, mem_sortedKeys, hM, List.mem_map]
    constructor
    · rintro ⟨r, hr, hf⟩
      exact ⟨r, hr, by rw [hrm r hr, hf]⟩
    · rintro ⟨r, hr, hk⟩
      refine ⟨r, hr, ?_⟩
      have h7 := hrm r hr
      rw [h7] at hk
      exact Option.some.inj hk
  · intro k q hkq
    rw [List.mem_map] at hkq
    obtain ⟨k0, hk0, hpair⟩ := hkq
    have hkk : k0 = k := congrArg Prod.fst hpair
    have hq : groupMean (ds.map (fun v => (v.monthOf?).getD 0))
        (us.map (fun v => (v.toRat?).getD 0)) k0 = q := congrArg Prod.snd hpair
    subst hkk
    rw [← hq]
    have hzip : (ds.map (fun v => (v.monthOf?).getD 0)).zip
        (us.map (fun v => (v.toRat?).getD 0))
        = df.rows.map (fun r => (((r.getD i Value.na).monthOf?).getD 0,
            ((r.getD j Value.na).toRat?).getD 0)) := by
      rw [hM, hN, List.zip_map']
    have hgvals : groupVals (ds.map (fun v => (v.monthOf?).getD 0))
        (us.map (fun v => (v.toRat?).getD 0)) k0
        = (df.rows.filter (fun r => (((r.getD i Value.na).monthOf?).getD 0) == k0)).map
            (fun r => ((r.getD j Value.na).toRat?).getD 0) := by
      rw [groupVals, hzip, List.filter_map, List.map_map]
      rfl
    have hspec : specMonthRows df k0
        = df.rows.filter (fun r => (((r.getD i Value.na).monthOf?).getD 0) == k0) := by
      rw [specMonthRows]
      apply List.filter_congr
      intro r hr
      rw [hrm r hr, some_beq_some]
    have hmc : (df.rows.filter (fun r => (((r.getD i Value.na).monthOf?).getD 0) == k0)).map
        (rowUnits df)
        = (df.rows.filter (fun r => (((r.getD i Value.na).monthOf?).getD 0) == k0)).map
            (fun r => ((r.getD j Value.na).toRat?).getD 0) :=
      List.map_congr_left (fun r hr => hru r (List.mem_filter.mp hr).1)
    rw [groupMean, hgvals, specMean, hspec, hmc, List.length_map]

/-- Witness for claim C1 at the specification scenario: the Aggregator
succeeds and the spec-side means are 15 for January and 30 for February. -/
theorem claim_C1_witness :
    data_analysis scenarioDf = .ok (scenarioD2, scenarioAgg) ∧
    specMean scenarioDf 1 = 15 ∧ specMean scenarioDf 2 = 30 := by
  have h := claim_C1_aggregator_monthly_mean scenarioDf
      [Value.vdate 2023 1 5, Value.vdate 2023 1 20, Value.vdate 2023 2 1]
      [Value.vint 10, Value.vint 20, Value.vint 30]
      (by decide) rfl (by decide) rfl (by decide)
  have h3 := h.2 scenarioD2 scenarioAgg scenario_analysis_eq
  exact ⟨scenario_analysis_eq, (h3.2 1 15 (by decide)).symm, (h3.2 2 30 (by decide)).symm⟩
